import Mathlib

/-!
# Verification of the xmedialib PCMU codec driver

The repository's only source file, `c_src/pcmu_codec.c`, is an Erlang
linked-in driver whose control callback dispatches a byte buffer either to
`linear_to_ulaw` (command `CMD_ENCODE = 1`) or to `ulaw_to_linear`
(command `CMD_DECODE = 2`), both provided by the external spandsp G.711
library (`<spandsp/g711.h>`), which is not part of this repository.

This file embeds:

* the per-sample μ-law codec (`linearToUlaw`, `ulawToLinear`), modelled
  from the specification since the spandsp implementation is not in the
  sources;
* the driver control callback `codec_drv_control`, translated from
  `c_src/pcmu_codec.c` (buffer reinterpretation, length laws, dispatch,
  error behaviour).

Samples are signed 16-bit values modelled as `Int` constrained to
`[-32768, 32767]`; bytes are `Nat` constrained to `[0, 255]`.  The C code
reinterprets the input `char*` as `int16_t*`; the byte pairing below is
little-endian, matching the host machines the driver runs on.
-/

/-- The μ-law bias, added to the magnitude before segment/mantissa
extraction (spec §4.1 step 2 and the glossary: "a fixed additive
constant (132)"). -/
def ULAW_BIAS : Nat := 132

/-- Modelled from the spec: the clamp on the absolute magnitude in
`linear_to_ulaw` ("clamp to a maximum magnitude ... to avoid overflow").
At the 16-bit input scale used throughout, the largest magnitude whose
biased value still fits in 15 bits is `32767 - 132 = 32635`; the spec's
"typically 8031" is the same clip expressed at the 14-bit scale. -/
def ULAW_CLIP : Nat := 32635

/-- The exponent segment (0–7) of a biased magnitude `v`, as the lookup
over segment end values that spec §4.1 step 3 and §9 describe ("an
exponent segment (0–7) via a lookup or bit-scan over the biased
magnitude"; a "precomputed constant array indexed by normalized
magnitude").  `ulawSegmentScan` below is the equivalent closed-form
bit-scan. -/
def ulawSegment (v : Nat) : Nat :=
  if v ≤ 0xFF then 0
  else if v ≤ 0x1FF then 1
  else if v ≤ 0x3FF then 2
  else if v ≤ 0x7FF then 3
  else if v ≤ 0xFFF then 4
  else if v ≤ 0x1FFF then 5
  else if v ≤ 0x3FFF then 6
  else 7

/-- The exponent segment as a closed-form bit-scan (spec §9: "a
closed-form bit-scan (count-leading-zeros) computation"): the position
of the most significant set bit of `v`, re-based so that biased
magnitudes below 256 fall in segment 0. -/
def ulawSegmentScan (v : Nat) : Nat := Nat.log2 v - 7

/-- Modelled from the spec: spandsp's `linear_to_ulaw` (called at
`pcmu_codec.c:81` but implemented in the external spandsp library) per
spec §4.1: sign bit; absolute value; clamp; add bias 132; most
significant set bit gives the 3-bit exponent segment; the 4 bits just
below the segment bit give the mantissa; assemble
`sign | (seg << 4) | mantissa` and complement the byte.  Shifts and
masks are written in `/`, `%`, `*` form; `linearToUlawBitOps` below is
the same pipeline with the literal bit operations, and the two are
proved equal. -/
def linearToUlaw (x : Int) : Nat :=
  let sign : Nat := if x < 0 then 128 else 0
  let mag : Nat := min x.natAbs ULAW_CLIP
  let v : Nat := mag + ULAW_BIAS
  let seg : Nat := ulawSegment v
  let mant : Nat := v / 2 ^ (seg + 3) % 16
  (sign + seg * 16 + mant) ^^^ 255

/-- Modelled from the spec: spandsp's `ulaw_to_linear` (called at
`pcmu_codec.c:88` but implemented in the external spandsp library) per
spec §4.1: complement the byte; extract sign bit, 3-bit exponent
segment and 4-bit mantissa; rebuild the biased magnitude, subtract the
bias 132, reapply the sign, clamp to the signed 16-bit range.  The
spec states the magnitude formula `((mantissa << 1) + 33) << exponent`
at the 14-bit scale with bias 33; at the 16-bit scale forced by the
132 bias and the 16-bit clamp this is `((mantissa << 3) + 132) <<
exponent` (exactly 4 times the 14-bit value); the relation between the
two scales is proved below (`C5` theorems). -/
def ulawToLinear (u : Nat) : Int :=
  let w : Nat := u % 256 ^^^ 255
  let sign : Nat := w / 128
  let seg : Nat := w / 16 % 8
  let mant : Nat := w % 16
  let t : Int := ((mant * 8 + ULAW_BIAS) * 2 ^ seg : Nat)
  let y : Int := t - (ULAW_BIAS : Nat)
  let r : Int := if sign = 1 then -y else y
  max (-32768) (min 32767 r)

/-- Two's-complement reading of a 16-bit pattern, as produced by the
`((int16_t*)buf)[i]` reinterpretation at `pcmu_codec.c:81`. -/
def toInt16 (n : Nat) : Int :=
  if n % 65536 < 32768 then (n % 65536 : Int) else (n % 65536 : Int) - 65536

/-- The 16-bit two's-complement pattern of a sample, split into its two
little-endian bytes, as stored by `((int16_t*)out->orig_bytes)[i] = ...`
at `pcmu_codec.c:88`. -/
def int16ToBytes (x : Int) : List Nat :=
  let n : Nat := (x % 65536).toNat
  [n % 256, n / 256]

/-- The input byte buffer reinterpreted as a sequence of little-endian
signed 16-bit samples (`(int16_t*)buf` at `pcmu_codec.c:81`); a trailing
odd byte (which the encode path has already excluded) yields no sample. -/
def bytesToSamples : List Nat → List Int
  | lo :: hi :: rest => toInt16 (lo % 256 + hi % 256 * 256) :: bytesToSamples rest
  | _ => []

/-- Command codes from the `enum` in `pcmu_codec.c`. -/
def CMD_ENCODE : Nat := 1

def CMD_DECODE : Nat := 2

/-- The control callback `codec_drv_control` of `pcmu_codec.c:63-97`.
The first component models `*rbuf`: `none` when the callback leaves it
`NULL` (odd-length encode input, unrecognized command), `some bytes`
when it stores an allocated binary.  The second component models the
returned length `ret`. -/
def codec_drv_control (command : Nat) (buf : List Nat) : Option (List Nat) × Nat :=
  if command = CMD_ENCODE then
    if buf.length % 2 ≠ 0 then (none, 0)
    else ((bytesToSamples buf).map linearToUlaw, buf.length / 2)
  else if command = CMD_DECODE then
    ((buf.map (fun b => int16ToBytes (ulawToLinear b))).flatten, buf.length * 2)
  else (none, 0)

/-- Modelled from the spec: the error taxonomy of spec §7, which the C
driver does not reify (it signals both failures by returning length 0
with `*rbuf` left `NULL`). -/
inductive CodecError where
  | malformedInput
  | outOfMemory
  | unsupportedOperation
deriving DecidableEq

/-- Modelled from the spec: which spec §7 error a request classifies as
(`MalformedInput` for an odd-length encode buffer,
`UnsupportedOperation` for an unrecognized selector). -/
def classifyRequest (command : Nat) (len : Nat) : Option CodecError :=
  if command = CMD_ENCODE then
    if len % 2 ≠ 0 then some .malformedInput else none
  else if command = CMD_DECODE then none
  else some .unsupportedOperation

/-- The quantization step of an exponent segment: adjacent decoder
outputs within segment `seg` are `8 * 2^seg` apart (the mantissa sits
`seg + 3` bits up). -/
def ulawStep (seg : Nat) : Nat := 8 * 2 ^ seg

/-- The exponent segment a linear sample is encoded into: the segment of
its clamped, biased magnitude. -/
def sampleSegment (x : Int) : Nat := ulawSegment (min x.natAbs ULAW_CLIP + ULAW_BIAS)

/-! ## Helper lemmas on the segment lookup and byte assembly -/

theorem ulawSegment_le (v : Nat) : ulawSegment v ≤ 7 := by
  unfold ulawSegment
  split_ifs <;> omega

theorem ulawSegment_bounds (v : Nat) (h1 : 128 ≤ v) (h2 : v ≤ 32767) :
    2 ^ (ulawSegment v + 7) ≤ v ∧ v < 2 ^ (ulawSegment v + 8) := by
  unfold ulawSegment
  split_ifs <;> norm_num <;> omega

theorem ulawSegmentScan_eq (v : Nat) (h1 : 128 ≤ v) (h2 : v ≤ 32767) :
    ulawSegmentScan v = ulawSegment v := by
  obtain ⟨hlo, hhi⟩ := ulawSegment_bounds v h1 h2
  have hv : v ≠ 0 := by omega
  have h3 : ulawSegment v + 7 ≤ Nat.log2 v := (Nat.le_log2 hv).2 hlo
  have h4 : Nat.log2 v < ulawSegment v + 8 := (Nat.log2_lt hv).2 hhi
  unfold ulawSegmentScan
  omega

set_option maxRecDepth 4096 in
theorem xor255_involution (a : Nat) (h : a < 256) : (a ^^^ 255) % 256 ^^^ 255 = a := by
  revert h
  revert a
  decide

/-- The biased magnitude the decoder reconstructs from the segment and
mantissa that the encoder extracted from a biased magnitude `v`
(proof-level abbreviation for the composition of the two pipelines). -/
def ulawRecon (v : Nat) : Nat :=
  (v / 2 ^ (ulawSegment v + 3) % 16 * 8 + 132) * 2 ^ ulawSegment v

theorem linearToUlaw_eq (x : Int) :
    linearToUlaw x =
      ((if x < 0 then 128 else 0)
        + ulawSegment (min x.natAbs ULAW_CLIP + ULAW_BIAS) * 16
        + (min x.natAbs ULAW_CLIP + ULAW_BIAS)
            / 2 ^ (ulawSegment (min x.natAbs ULAW_CLIP + ULAW_BIAS) + 3) % 16) ^^^ 255 := rfl

theorem ulawToLinear_eq (u : Nat) :
    ulawToLinear u =
      max (-32768) (min 32767
        (if (u % 256 ^^^ 255) / 128 = 1 then
          -((((u % 256 ^^^ 255) % 16 * 8 + 132) * 2 ^ ((u % 256 ^^^ 255) / 16 % 8) : Nat)
              - (132 : Int))
        else
          ((((u % 256 ^^^ 255) % 16 * 8 + 132) * 2 ^ ((u % 256 ^^^ 255) / 16 % 8) : Nat)
              - (132 : Int)))) := rfl

theorem ulawRecon_le (v : Nat) : 132 ≤ ulawRecon v ∧ ulawRecon v ≤ 32256 := by
  unfold ulawRecon
  set s : Nat := ulawSegment v with hs
  set m : Nat := v / 2 ^ (s + 3) % 16 with hm
  have hsle : s ≤ 7 := ulawSegment_le v
  have hmlt : m < 16 := Nat.mod_lt _ (by norm_num)
  have hpow : (2 : Nat) ^ s ≤ 128 := by
    calc (2 : Nat) ^ s ≤ 2 ^ 7 := Nat.pow_le_pow_right (by norm_num) hsle
    _ = 128 := by norm_num
  have hpow1 : (1 : Nat) ≤ 2 ^ s := Nat.one_le_two_pow
  constructor
  · calc (132 : Nat) = 132 * 1 := by norm_num
    _ ≤ (m * 8 + 132) * 2 ^ s := Nat.mul_le_mul (by omega) hpow1
  · calc (m * 8 + 132) * 2 ^ s ≤ 252 * 2 ^ s := Nat.mul_le_mul_right _ (by omega)
    _ ≤ 252 * 128 := Nat.mul_le_mul_left _ hpow
    _ = 32256 := by norm_num

/-- Closed form of the round trip: decoding an encoded sample yields the
reconstructed biased magnitude minus the bias, with the sign of the
original sample, and the 16-bit clamp in the decoder never fires. -/
theorem ulawToLinear_linearToUlaw (x : Int) :
    ulawToLinear (linearToUlaw x) =
      (if x < 0 then -1 else 1) * ((ulawRecon (min x.natAbs ULAW_CLIP + ULAW_BIAS) : Int) - 132) := by
  rw [linearToUlaw_eq, ulawToLinear_eq]
  set v : Nat := min x.natAbs ULAW_CLIP + ULAW_BIAS with hv
  set s : Nat := ulawSegment v with hs
  set m : Nat := v / 2 ^ (s + 3) % 16 with hm
  have hsle : s ≤ 7 := ulawSegment_le v
  have hmlt : m < 16 := Nat.mod_lt _ (by norm_num)
  have hrec : ulawRecon v = (m * 8 + 132) * 2 ^ s := rfl
  obtain ⟨ht2, ht⟩ := ulawRecon_le v
  rw [hrec] at ht2 ht
  set sg : Nat := if x < 0 then 128 else 0 with hsg
  have hsg01 : sg = 0 ∨ sg = 128 := by
    rw [hsg]; split_ifs <;> simp
  have ha : sg + s * 16 + m < 256 := by omega
  rw [xor255_involution _ ha]
  have hdiv128 : (sg + s * 16 + m) / 128 = sg / 128 := by omega
  have hdiv16 : (sg + s * 16 + m) / 16 % 8 = s := by omega
  have hmod16 : (sg + s * 16 + m) % 16 = m := by omega
  rw [hdiv128, hdiv16, hmod16, hrec]
  set T : Nat := (m * 8 + 132) * 2 ^ s with hT
  rw [hsg]
  by_cases hx : x < 0
  · simp only [if_pos hx]
    norm_num
    omega
  · simp only [if_neg hx]
    norm_num
    omega

/-- The reconstructed biased magnitude is within half a quantization
step (`2 ^ (seg + 2)`) of the original biased magnitude. -/
theorem ulawRecon_bound (v : Nat) (h1 : 132 ≤ v) (h2 : v ≤ 32767) :
    ulawRecon v ≤ v + 2 ^ (ulawSegment v + 2) ∧ v ≤ ulawRecon v + 2 ^ (ulawSegment v + 2) := by
  obtain ⟨hlo, hhi⟩ := ulawSegment_bounds v (by omega) h2
  unfold ulawRecon
  set s : Nat := ulawSegment v with hs
  set b : Nat := v / 2 ^ (s + 3) with hb
  have hp3 : (2 : Nat) ^ (s + 3) = 2 ^ s * 8 := by rw [pow_add]; norm_num
  have hp2 : (2 : Nat) ^ (s + 2) = 2 ^ s * 4 := by rw [pow_add]; norm_num
  have hp7 : (2 : Nat) ^ (s + 7) = 2 ^ s * 128 := by rw [pow_add]; norm_num
  have hp8 : (2 : Nat) ^ (s + 8) = 2 ^ s * 256 := by rw [pow_add]; norm_num
  have hb16 : 16 ≤ b := by
    rw [hb, Nat.le_div_iff_mul_le (Nat.two_pow_pos _)]
    calc 16 * 2 ^ (s + 3) = 2 ^ (s + 7) := by rw [hp3, hp7]; ring
    _ ≤ v := hlo
  have hb32 : b < 32 := by
    rw [hb, Nat.div_lt_iff_lt_mul (Nat.two_pow_pos _)]
    calc v < 2 ^ (s + 8) := hhi
    _ = 32 * 2 ^ (s + 3) := by rw [hp3, hp8]; ring
  have hm : b % 16 = b - 16 := by omega
  rw [hm]
  have key : ((b - 16) * 8 + 132) * 2 ^ s = b * 2 ^ (s + 3) + 2 ^ (s + 2) := by
    have h4 : (b - 16) * 8 + 132 = b * 8 + 4 := by omega
    rw [h4, hp3, hp2]; ring
  rw [key]
  have hmod := Nat.div_add_mod v (2 ^ (s + 3))
  have hrlt : v % 2 ^ (s + 3) < 2 ^ (s + 3) := Nat.mod_lt _ (Nat.two_pow_pos _)
  have hcomm : 2 ^ (s + 3) * (v / 2 ^ (s + 3)) = b * 2 ^ (s + 3) := by rw [hb]; ring
  have h23 : (2 : Nat) ^ (s + 3) = 2 * 2 ^ (s + 2) := by rw [hp3, hp2]; ring
  omega

/-- C1: for every representable signed 16-bit linear sample `x`, the
absolute difference between `decode(encode(x))` and `x` is at most the
quantization step of the exponent segment of `x`, and the step grows
strictly with the segment. -/
theorem pcmu_roundtrip_bound :
    (∀ x : Int, -32768 ≤ x → x ≤ 32767 →
      |ulawToLinear (linearToUlaw x) - x| ≤ (ulawStep (sampleSegment x) : Int)) ∧
    (∀ s t : Nat, s < t → ulawStep s < ulawStep t) := by
  constructor
  · intro x hx1 hx2
    rw [ulawToLinear_linearToUlaw, abs_le]
    unfold sampleSegment ulawStep ULAW_CLIP ULAW_BIAS
    set n : Nat := x.natAbs with hn
    by_cases hcl : n ≤ 32635
    · rw [min_eq_left hcl]
      obtain ⟨hr1, hr2⟩ := ulawRecon_bound (n + 132) (by omega) (by omega)
      set s : Nat := ulawSegment (n + 132) with hs
      have hp2 : (2 : Nat) ^ (s + 2) = 2 ^ s * 4 := by rw [pow_add]; norm_num
      by_cases hxneg : x < 0
      · simp only [if_pos hxneg]
        omega
      · simp only [if_neg hxneg]
        omega
    · rw [min_eq_right (by omega)]
      have hseg7 : ulawSegment (32635 + 132) = 7 := by decide
      have hrec : ulawRecon (32635 + 132) = 32256 := by decide
      rw [hseg7, hrec]
      by_cases hxneg : x < 0
      · simp only [if_pos hxneg]
        omega
      · simp only [if_neg hxneg]
        omega
  · intro s t hst
    have h2 : (2 : Nat) ^ s < 2 ^ t := Nat.pow_lt_pow_right (by norm_num) hst
    unfold ulawStep
    omega

/-- Witness for C1 at `x = 1000`: the round-trip error is within the
step of segment 3. -/
theorem pcmu_roundtrip_bound_witness :
    (-32768 ≤ (1000 : Int) ∧ (1000 : Int) ≤ 32767) ∧
      |ulawToLinear (linearToUlaw 1000) - 1000| ≤ (ulawStep (sampleSegment 1000) : Int) ∧
      (0 : Nat) < 1 ∧ ulawStep 0 < ulawStep 1 :=
  ⟨⟨by norm_num, by norm_num⟩,
    pcmu_roundtrip_bound.1 1000 (by norm_num) (by norm_num),
    by norm_num,
    pcmu_roundtrip_bound.2 0 1 (by norm_num)⟩

/-- C7: the boundary samples 32767 and -32768 do not overflow or wrap:
both clamp to the maximum segment/mantissa combination (segment 7,
mantissa 15, matching the encoding of the clip magnitude 32635), giving
bytes `0x80` and `0x00`. -/
theorem pcmu_boundary_clamp :
    linearToUlaw 32767 = (0 + 7 * 16 + 15) ^^^ 255 ∧
    linearToUlaw (-32768) = (128 + 7 * 16 + 15) ^^^ 255 ∧
    linearToUlaw 32767 = linearToUlaw 32635 ∧
    linearToUlaw (-32768) = linearToUlaw (-32635) ∧
    sampleSegment 32767 = 7 ∧ sampleSegment (-32768) = 7 := by decide

/-- C8: for nonzero representable samples, decoding the encoding of `x`
and of `-x` gives exact negations of each other. -/
theorem pcmu_sign_symmetry (x : Int) (h1 : -32768 ≤ x) (h2 : x ≤ 32767) (h3 : x ≠ 0) :
    ulawToLinear (linearToUlaw (-x)) = -(ulawToLinear (linearToUlaw x)) := by
  rw [ulawToLinear_linearToUlaw, ulawToLinear_linearToUlaw, Int.natAbs_neg]
  by_cases hx : x < 0
  · have hnx : ¬(-x < 0) := by omega
    simp only [if_pos hx, if_neg hnx]
    ring
  · have hnx : -x < 0 := by omega
    simp only [if_neg hx, if_pos hnx]
    ring

/-- Witness for C8 at `x = 1234`. -/
theorem pcmu_sign_symmetry_witness :
    (-32768 ≤ (1234 : Int) ∧ (1234 : Int) ≤ 32767 ∧ (1234 : Int) ≠ 0) ∧
      ulawToLinear (linearToUlaw (-1234)) = -(ulawToLinear (linearToUlaw 1234)) :=
  ⟨⟨by norm_num, by norm_num, by norm_num⟩,
    pcmu_sign_symmetry 1234 (by norm_num) (by norm_num) (by norm_num)⟩

/-! ## C4: the encoder as the claim words it, with literal bit operations -/

/-- The encoder pipeline exactly as claim C4 words it: sign bit,
absolute value, clamp, fixed bias 132, most-significant-set-bit
position as the 3-bit exponent segment (closed-form bit scan), 4-bit
mantissa from the bits below the segment,
`sign_bit ||| (exponent <<< 4) ||| mantissa`, bitwise inversion. -/
def linearToUlawBitOps (x : Int) : Nat :=
  let sign : Nat := if x < 0 then 0x80 else 0x00
  let mag : Nat := min x.natAbs ULAW_CLIP
  let v : Nat := mag + ULAW_BIAS
  let seg : Nat := ulawSegmentScan v
  let mant : Nat := v >>> (seg + 3) &&& 0xF
  (sign ||| seg <<< 4 ||| mant) ^^^ 0xFF

theorem linearToUlawBitOps_eq (x : Int) :
    linearToUlawBitOps x =
      ((if x < 0 then 128 else 0)
        ||| ulawSegmentScan (min x.natAbs ULAW_CLIP + ULAW_BIAS) <<< 4
        ||| (min x.natAbs ULAW_CLIP + ULAW_BIAS)
              >>> (ulawSegmentScan (min x.natAbs ULAW_CLIP + ULAW_BIAS) + 3) &&& 15) ^^^ 255 := rfl

set_option maxRecDepth 4096 in
theorem ulaw_assemble0 : ∀ s, s < 8 → ∀ m, m < 16 → 0 ||| s * 16 ||| m = 0 + s * 16 + m := by
  decide

set_option maxRecDepth 4096 in
theorem ulaw_assemble128 : ∀ s, s < 8 → ∀ m, m < 16 → 128 ||| s * 16 ||| m = 128 + s * 16 + m := by
  decide

set_option maxRecDepth 4096 in
theorem and_fifteen : ∀ b, b < 32 → b &&& 15 = b % 16 := by decide

/-- C4: the source-modelled encoder equals the claim's step-by-step
bit-operation pipeline on every representable 16-bit sample. -/
theorem pcmu_encode_pipeline (x : Int) (h1 : -32768 ≤ x) (h2 : x ≤ 32767) :
    linearToUlaw x = linearToUlawBitOps x := by
  rw [linearToUlaw_eq, linearToUlawBitOps_eq]
  set v : Nat := min x.natAbs ULAW_CLIP + ULAW_BIAS with hv
  have hvlo : 132 ≤ v := by
    rw [hv]; unfold ULAW_BIAS; omega
  have hvhi : v ≤ 32767 := by
    rw [hv]; unfold ULAW_BIAS ULAW_CLIP; omega
  rw [ulawSegmentScan_eq v (by omega) hvhi]
  set s : Nat := ulawSegment v with hs
  have hsle : s ≤ 7 := ulawSegment_le v
  obtain ⟨hlo, hhi⟩ := ulawSegment_bounds v (by omega) hvhi
  rw [Nat.shiftRight_eq_div_pow]
  have hblt : v / 2 ^ (s + 3) < 32 := by
    rw [Nat.div_lt_iff_lt_mul (Nat.two_pow_pos _)]
    calc v < 2 ^ (s + 8) := hhi
    _ = 32 * 2 ^ (s + 3) := by rw [pow_add, pow_add]; ring
  rw [and_fifteen _ hblt]
  have hmlt : v / 2 ^ (s + 3) % 16 < 16 := Nat.mod_lt _ (by norm_num)
  have hshift : s <<< 4 = s * 16 := by
    rw [Nat.shiftLeft_eq]
  rw [hshift]
  congr 1
  by_cases hx : x < 0
  · simp only [if_pos hx]
    exact (ulaw_assemble128 s (by omega) (v / 2 ^ (s + 3) % 16) hmlt).symm
  · simp only [if_neg hx]
    exact (ulaw_assemble0 s (by omega) (v / 2 ^ (s + 3) % 16) hmlt).symm

/-- Witness for C4 at `x = -5000`. -/
theorem pcmu_encode_pipeline_witness :
    (-32768 ≤ (-5000 : Int) ∧ (-5000 : Int) ≤ 32767) ∧
      linearToUlaw (-5000) = linearToUlawBitOps (-5000) :=
  ⟨⟨by norm_num, by norm_num⟩, pcmu_encode_pipeline (-5000) (by norm_num) (by norm_num)⟩

/-! ## C5: the decoder magnitude formula and its scale -/

/-- The decoder exactly as claim C5 reads literally: linear magnitude
`((mantissa << 1) + 33) << exponent`, minus the bias (132 per the
spec's glossary), sign reapplied, clamped.  Kept only to exhibit the
scale mismatch: this pipeline does not reproduce `ulawToLinear`. -/
def ulawToLinearClaimLiteral (u : Nat) : Int :=
  let w : Nat := u % 256 ^^^ 255
  let sign : Nat := w / 128
  let seg : Nat := w / 16 % 8
  let mant : Nat := w % 16
  let t : Int := ((mant * 2 + 33) * 2 ^ seg : Nat)
  let y : Int := t - (ULAW_BIAS : Nat)
  let r : Int := if sign = 1 then -y else y
  max (-32768) (min 32767 r)

/-- The spec's magnitude formula at its native 14-bit scale: magnitude
`((mantissa << 1) + 33) << exponent` minus the 14-bit bias 33, sign
reapplied. -/
def ulawToLinear14 (u : Nat) : Int :=
  let w : Nat := u % 256 ^^^ 255
  let sign : Nat := w / 128
  let seg : Nat := w / 16 % 8
  let mant : Nat := w % 16
  let y : Int := ((mant * 2 + 33) * 2 ^ seg : Nat) - 33
  if sign = 1 then -y else y

/-- Counterexample for C5 as stated: at the μ-law byte 0 the decoder
yields -32124, not the -7932 produced by the claim's literal formula. -/
theorem pcmu_decode_formula_counterexample :
    ulawToLinear 0 = -32124 ∧ ulawToLinearClaimLiteral 0 = -7932 ∧
      ulawToLinear 0 ≠ ulawToLinearClaimLiteral 0 := by decide

set_option maxRecDepth 4096 in
/-- C5 (amended): for every μ-law byte, the decoder output is exactly 4
times the value of the spec's 14-bit-scale formula
`((mantissa << 1) + 33) << exponent` minus the 14-bit bias 33, with the
sign reapplied; the 14-bit value is bounded by 8031, so the 16-bit
clamp never truncates. -/
theorem pcmu_decode_scale :
    ∀ u : Nat, u < 256 →
      ulawToLinear u = 4 * ulawToLinear14 u ∧ (ulawToLinear14 u).natAbs ≤ 8031 := by decide

/-- Witness for the amended C5 at byte 37. -/
theorem pcmu_decode_scale_witness :
    (37 : Nat) < 256 ∧
      (ulawToLinear 37 = 4 * ulawToLinear14 37 ∧ (ulawToLinear14 37).natAbs ≤ 8031) :=
  ⟨by norm_num, pcmu_decode_scale 37 (by norm_num)⟩

/-! ## Buffer-level lemmas -/

theorem bytesToSamples_length : ∀ l : List Nat, (bytesToSamples l).length = l.length / 2
  | [] => by simp [bytesToSamples]
  | [_] => by simp [bytesToSamples]
  | _ :: _ :: rest => by
    simp only [bytesToSamples, List.length_cons, bytesToSamples_length rest]
    omega

theorem bytesToSamples_getD : ∀ (l : List Nat) (i : Nat), 2 * i + 1 < l.length →
    (bytesToSamples l).getD i 0
      = toInt16 (l.getD (2 * i) 0 % 256 + l.getD (2 * i + 1) 0 % 256 * 256)
  | [], _, h => by simp at h
  | [_], _, h => by simp at h
  | a :: b :: rest, 0, _ => by simp [bytesToSamples]
  | a :: b :: rest, i + 1, h => by
    have hrest : 2 * i + 1 < rest.length := by
      simp only [List.length_cons] at h; omega
    have ih := bytesToSamples_getD rest i hrest
    have e1 : 2 * (i + 1) = 2 * i + 1 + 1 := by ring
    have e2 : 2 * (i + 1) + 1 = 2 * i + 1 + 1 + 1 := by ring
    rw [e2, e1]
    simp only [bytesToSamples, List.getD_cons_succ]
    exact ih

theorem getD_map_of_lt {α β : Type} (f : α → β) (l : List α) (i : Nat) (d : α) (e : β)
    (h : i < l.length) : (l.map f).getD i e = f (l.getD i d) := by
  rw [List.getD_eq_getElem?_getD, List.getElem?_map, List.getElem?_eq_getElem h,
    List.getD_eq_getElem?_getD, List.getElem?_eq_getElem h]
  rfl

theorem decodeBytes_length :
    ∀ l : List Nat, ((l.map (fun b => int16ToBytes (ulawToLinear b))).flatten).length
      = l.length * 2
  | [] => rfl
  | a :: rest => by
    simp only [List.map_cons, List.flatten_cons, List.length_append, List.length_cons,
      decodeBytes_length rest]
    simp [int16ToBytes]
    omega

theorem decodeBytes_getD : ∀ (l : List Nat) (i : Nat), i < l.length →
    ((l.map (fun b => int16ToBytes (ulawToLinear b))).flatten).getD (2 * i) 0
        = (ulawToLinear (l.getD i 0) % 65536).toNat % 256 ∧
    ((l.map (fun b => int16ToBytes (ulawToLinear b))).flatten).getD (2 * i + 1) 0
        = (ulawToLinear (l.getD i 0) % 65536).toNat / 256
  | [], _, h => by simp at h
  | a :: rest, 0, _ => by simp [int16ToBytes]
  | a :: rest, i + 1, h => by
    have hrest : i < rest.length := by
      simp only [List.length_cons] at h; omega
    have ih := decodeBytes_getD rest i hrest
    have e1 : 2 * (i + 1) = 2 * i + 1 + 1 := by ring
    have e2 : 2 * (i + 1) + 1 = 2 * i + 1 + 1 + 1 := by ring
    rw [e2, e1]
    simp only [List.map_cons, List.flatten_cons, int16ToBytes, List.cons_append,
      List.nil_append, List.getD_cons_succ]
    exact ih

/-- C2: encode on an even-length buffer returns exactly half as many
bytes, the i-th output byte being the μ-law encoding of the i-th
little-endian 16-bit sample; decode returns exactly twice as many
bytes, bytes 2i and 2i+1 being the little-endian representation of the
decoded i-th input byte. -/
theorem pcmu_length_laws (buf : List Nat) :
    (buf.length % 2 = 0 →
      ∃ out, codec_drv_control CMD_ENCODE buf = (some out, buf.length / 2) ∧
        out.length = buf.length / 2 ∧
        ∀ i, i < buf.length / 2 →
          out.getD i 0
            = linearToUlaw (toInt16 (buf.getD (2 * i) 0 % 256 + buf.getD (2 * i + 1) 0 % 256 * 256))) ∧
    ∃ out, codec_drv_control CMD_DECODE buf = (some out, buf.length * 2) ∧
      out.length = buf.length * 2 ∧
      ∀ i, i < buf.length →
        out.getD (2 * i) 0 = (ulawToLinear (buf.getD i 0) % 65536).toNat % 256 ∧
        out.getD (2 * i + 1) 0 = (ulawToLinear (buf.getD i 0) % 65536).toNat / 256 := by
  constructor
  · intro heven
    refine ⟨(bytesToSamples buf).map linearToUlaw, ?_, ?_, ?_⟩
    · simp [codec_drv_control, CMD_ENCODE, heven]
    · simp [List.length_map, bytesToSamples_length]
    · intro i hi
      have hlen : i < (bytesToSamples buf).length := by
        rw [bytesToSamples_length]; omega
      rw [getD_map_of_lt linearToUlaw _ i 0 0 hlen]
      rw [bytesToSamples_getD buf i (by omega)]
  · refine ⟨(buf.map (fun b => int16ToBytes (ulawToLinear b))).flatten, ?_, ?_, ?_⟩
    · simp [codec_drv_control, CMD_ENCODE, CMD_DECODE]
    · exact decodeBytes_length buf
    · intro i hi
      exact decodeBytes_getD buf i hi

/-- Witness for C2 on the concrete buffer `[16, 0, 0, 255]`. -/
theorem pcmu_length_laws_witness :
    ([16, 0, 0, 255] : List Nat).length % 2 = 0 ∧
      (∃ out, codec_drv_control CMD_ENCODE [16, 0, 0, 255]
          = (some out, ([16, 0, 0, 255] : List Nat).length / 2) ∧
        out.length = ([16, 0, 0, 255] : List Nat).length / 2 ∧
        ∀ i, i < ([16, 0, 0, 255] : List Nat).length / 2 →
          out.getD i 0
            = linearToUlaw (toInt16 (([16, 0, 0, 255] : List Nat).getD (2 * i) 0 % 256
                + ([16, 0, 0, 255] : List Nat).getD (2 * i + 1) 0 % 256 * 256))) :=
  ⟨rfl, (pcmu_length_laws [16, 0, 0, 255]).1 rfl⟩

/-- C3: an encode request on an odd-length buffer leaves `*rbuf` NULL
and returns 0 — the condition the spec taxonomy names
`MalformedInput`. -/
theorem pcmu_malformed_input (buf : List Nat) (h : buf.length % 2 = 1) :
    codec_drv_control CMD_ENCODE buf = (none, 0) ∧
    classifyRequest CMD_ENCODE buf.length = some CodecError.malformedInput := by
  have hodd : buf.length % 2 ≠ 0 := by omega
  constructor
  · simp [codec_drv_control, CMD_ENCODE, hodd]
  · simp [classifyRequest, CMD_ENCODE, hodd]

/-- Witness for C3 on the odd buffer `[0]`. -/
theorem pcmu_malformed_input_witness :
    ([0] : List Nat).length % 2 = 1 ∧
      (codec_drv_control CMD_ENCODE [0] = (none, 0) ∧
        classifyRequest CMD_ENCODE ([0] : List Nat).length = some CodecError.malformedInput) :=
  ⟨rfl, pcmu_malformed_input [0] rfl⟩

/-- C6: a request whose command is neither encode nor decode performs no
transformation — `*rbuf` stays NULL and the returned length is 0 — the
condition the spec taxonomy names `UnsupportedOperation`. -/
theorem pcmu_unsupported (c : Nat) (buf : List Nat)
    (h1 : c ≠ CMD_ENCODE) (h2 : c ≠ CMD_DECODE) :
    codec_drv_control c buf = (none, 0) ∧
    classifyRequest c buf.length = some CodecError.unsupportedOperation := by
  constructor
  · simp [codec_drv_control, h1, h2]
  · simp [classifyRequest, h1, h2]

/-- Witness for C6 with command 3. -/
theorem pcmu_unsupported_witness :
    ((3 : Nat) ≠ CMD_ENCODE ∧ (3 : Nat) ≠ CMD_DECODE) ∧
      (codec_drv_control 3 [7, 7] = (none, 0) ∧
        classifyRequest 3 ([7, 7] : List Nat).length = some CodecError.unsupportedOperation) :=
  ⟨⟨by decide, by decide⟩, pcmu_unsupported 3 [7, 7] (by decide) (by decide)⟩

/-! ## C9: silence buffers -/

theorem bytesToSamples_replicate_zero :
    ∀ n : Nat, bytesToSamples (List.replicate (2 * n) 0) = List.replicate n 0
  | 0 => rfl
  | n + 1 => by
    have e : 2 * (n + 1) = 2 * n + 1 + 1 := by ring
    rw [e, List.replicate_succ, List.replicate_succ]
    show bytesToSamples (0 :: 0 :: List.replicate (2 * n) 0) = List.replicate (n + 1) 0
    rw [List.replicate_succ]
    simp only [bytesToSamples, bytesToSamples_replicate_zero n]
    norm_num [toInt16]

theorem flatten_replicate_pair :
    ∀ n : Nat, (List.replicate n ([0, 0] : List Nat)).flatten = List.replicate (2 * n) 0
  | 0 => rfl
  | n + 1 => by
    rw [List.replicate_succ, List.flatten_cons, flatten_replicate_pair n]
    have e : 2 * (n + 1) = 2 * n + 1 + 1 := by ring
    rw [e, List.replicate_succ, List.replicate_succ]
    rfl

/-- C9: encoding a buffer of all-zero linear samples yields the constant
byte `0xFF`; decoding a buffer of that constant byte yields all-zero
samples (zero exactly, so certainly within quantization error). -/
theorem pcmu_silence :
    (∀ n : Nat, codec_drv_control CMD_ENCODE (List.replicate (2 * n) 0)
        = (some (List.replicate n 255), n)) ∧
    (∀ n : Nat, codec_drv_control CMD_DECODE (List.replicate n 255)
        = (some (List.replicate (2 * n) 0), n * 2)) ∧
    linearToUlaw 0 = 255 ∧ ulawToLinear 255 = 0 := by
  refine ⟨?_, ?_, by decide, by decide⟩
  · intro n
    have h255 : linearToUlaw 0 = 255 := by decide
    simp [codec_drv_control, CMD_ENCODE, Nat.mul_mod_right,
      bytesToSamples_replicate_zero n, List.map_replicate, h255, Nat.mul_div_cancel_left]
  · intro n
    have h0 : int16ToBytes (ulawToLinear 255) = [0, 0] := by decide
    simp [codec_drv_control, CMD_ENCODE, CMD_DECODE, List.map_replicate, h0,
      flatten_replicate_pair n]

/-! ## C10: zero-length results are ambiguous at the interface -/

/-- C10: an odd-length encode request, a request with an unrecognized
command, and a valid encode or decode of the empty buffer all return
length 0 (the failures with `*rbuf` NULL, the empty conversions with an
empty binary), so the returned length alone cannot separate the
failure cases from successful conversion of empty input. -/
theorem pcmu_zero_length_ambiguity :
    (∀ buf : List Nat, buf.length % 2 = 1 →
      codec_drv_control CMD_ENCODE buf = (none, 0)) ∧
    (∀ (c : Nat) (buf : List Nat), c ≠ CMD_ENCODE → c ≠ CMD_DECODE →
      codec_drv_control c buf = (none, 0)) ∧
    codec_drv_control CMD_ENCODE [] = (some [], 0) ∧
    codec_drv_control CMD_DECODE [] = (some [], 0) := by
  refine ⟨?_, ?_, by decide, by decide⟩
  · intro buf h
    have hodd : buf.length % 2 ≠ 0 := by omega
    simp [codec_drv_control, CMD_ENCODE, hodd]
  · intro c buf h1 h2
    simp [codec_drv_control, h1, h2]

/-- Witness for C10: odd-length encode of `[9]` and unknown command 5
both produce the same observable result as the empty conversions:
length 0. -/
theorem pcmu_zero_length_ambiguity_witness :
    (([9] : List Nat).length % 2 = 1 ∧ codec_drv_control CMD_ENCODE [9] = (none, 0)) ∧
    ((5 : Nat) ≠ CMD_ENCODE ∧ (5 : Nat) ≠ CMD_DECODE ∧
      codec_drv_control 5 [1, 2] = (none, 0)) :=
  ⟨⟨rfl, pcmu_zero_length_ambiguity.1 [9] rfl⟩,
    ⟨by decide, by decide, pcmu_zero_length_ambiguity.2.1 5 [1, 2] (by decide) (by decide)⟩⟩
